import Mathlib

/-!
Verification of the libndef-lite NDEF codec (record/message encoder-decoder).

The definitions below are a shallow embedding of the C++ sources:
bytes are `Nat` values (callers only supply values < 256; every place where
the C++ narrows to `uint8_t` carries an explicit `% 256`), byte buffers are
`List Nat`, and every C++ function that can throw is embedded as a function
into `Except NdefError _`, with one error constructor per `throw` site.
-/

namespace NdefLite

/-- Embeds NDEFRecordType::TypeID (record-type.hpp): the 3-bit TNF code. -/
inductive TypeID where
  | Empty
  | WellKnown
  | MIMEMedia
  | AbsoluteURI
  | External
  | Unknown
  | Unchanged
  | Invalid
deriving DecidableEq

/-- Numeric value of the TypeID enumerator (static_cast<uint8_t>). -/
def TypeID.toNat : TypeID → Nat
  | .Empty => 0
  | .WellKnown => 1
  | .MIMEMedia => 2
  | .AbsoluteURI => 3
  | .External => 4
  | .Unknown => 5
  | .Unchanged => 6
  | .Invalid => 7

/-- TypeID from a 3-bit value, embedding static_cast<TypeID>(tnf) with tnf in 0..7. -/
def TypeID.ofTnf : Nat → TypeID
  | 0 => .Empty
  | 1 => .WellKnown
  | 2 => .MIMEMedia
  | 3 => .AbsoluteURI
  | 4 => .External
  | 5 => .Unknown
  | 6 => .Unchanged
  | _ => .Invalid

/-- Embeds the error paths of the C++ code, one constructor per throw site:
`octets` is the NDEFException thrown by NDEFRecord::from_bytes when fewer
than 4 bytes are given; `tooFew` is util::assertHasValues / assertHasValue;
`invalidCharDecode` is the type-field character check in from_bytes;
`invalidCharEncode` is the type-field character check in as_bytes;
`indexOutOfRange` is std::out_of_range from NDEFMessage bounds checks;
`atOutOfRange` is std::out_of_range from an out-of-bounds vector .at call. -/
inductive NdefError where
  | octets
  | tooFew (field : String) (required actual : Nat)
  | invalidCharDecode (code : Nat)
  | invalidCharEncode (code : Nat)
  | indexOutOfRange (msg : String)
  | atOutOfRange
deriving DecidableEq

/-- Embeds NDEFRecordType (record-type.hpp): TNF id plus ASCII type name
(the C++ std::string is embedded as its list of byte values). -/
structure NDEFRecordType where
  type_name : List Nat
  type_id : TypeID
deriving DecidableEq

/-- Embeds the NDEFRecordType constructor (record-type.cpp lines 4-10):
an Empty record has its type name cleared. -/
def NDEFRecordType.make (id : TypeID) (name : List Nat) : NDEFRecordType :=
  ⟨if id = TypeID.Empty then [] else name, id⟩

/-- Accessor NDEFRecordType::id(). -/
def NDEFRecordType.id (t : NDEFRecordType) : TypeID := t.type_id

/-- Accessor NDEFRecordType::name(). -/
def NDEFRecordType.name (t : NDEFRecordType) : List Nat := t.type_name

/-- Embeds NDEFRecordType::from_bytes (record-type.cpp lines 13-66).
Returns the Invalid sentinel when fewer than 2 bytes remain or when
`remaining.size() < type_length`; reading the name via `remaining.at(...)`
out of range throws std::out_of_range, embedded as `.error .atOutOfRange`.
(The C++ computes `data.size() - offset` in size_t; as in all its callers,
`offset ≤ data.size()` is assumed, where the Nat subtraction agrees.) -/
def NDEFRecordType.from_bytes (data : List Nat) (offset : Nat) :
    Except NdefError NDEFRecordType :=
  if data.length - offset < 2 then .ok (NDEFRecordType.make .Invalid [])
  else
    let remaining := data.drop offset
    let byte := remaining.headD 0
    let tnf := byte &&& 7
    let has_id_field := byte &&& 8 != 0
    let short_record := byte &&& 16 != 0
    let type_length := (remaining.drop 1).headD 0
    let byte_offset := 2 + (if short_record then 1 else 4)
      + (if has_id_field then 1 else 0)
    if remaining.length < type_length then .ok (NDEFRecordType.make .Invalid [])
    else if type_length ≠ 0 ∧ remaining.length < byte_offset + type_length then
      .error .atOutOfRange
    else
      let type_name := (remaining.drop byte_offset).take type_length
      let id := if 7 ≤ tnf then TypeID.Unknown else TypeID.ofTnf tnf
      .ok (NDEFRecordType.make id type_name)

/-- Embeds NDEFRecordHeader (record-header.hpp). -/
structure NDEFRecordHeader where
  tnf : TypeID
  il : Bool
  sr : Bool
  cf : Bool
  me : Bool
  mb : Bool
deriving DecidableEq

/-- Embeds NDEFRecordHeader::from_byte (record-header.cpp lines 5-16). -/
def NDEFRecordHeader.fromByte (value : Nat) : NDEFRecordHeader :=
  { tnf := TypeID.ofTnf (value &&& 7)
    il := value &&& 8 != 0
    sr := value &&& 16 != 0
    cf := value &&& 32 != 0
    me := value &&& 64 != 0
    mb := value &&& 128 != 0 }

/-- Embeds NDEFRecordHeader::asByte (record-header.cpp lines 19-31). -/
def NDEFRecordHeader.asByte (h : NDEFRecordHeader) : Nat :=
  (if h.mb then 128 else 0) ||| (if h.me then 64 else 0)
    ||| (if h.cf then 32 else 0) ||| (if h.sr then 16 else 0)
    ||| (if h.il then 8 else 0) ||| h.tnf.toNat

/-- Embeds NDEFRecord (record.hpp): type, id string, payload bytes,
chunk flag. -/
structure NDEFRecord where
  record_type : NDEFRecordType
  id_field : List Nat
  payload_data : List Nat
  chunked : Bool
deriving DecidableEq

/-- Embeds NDEFRecord::validate (ndef-record.cpp lines 311-317) as the
record-type it leaves in place: a non-empty payload on an Empty-typed
record coerces the type to Unknown. -/
def NDEFRecord.validatedType (t : NDEFRecordType) (payload : List Nat) :
    NDEFRecordType :=
  if 0 < payload.length ∧ t.type_id = TypeID.Empty then
    NDEFRecordType.make TypeID.Unknown []
  else t

/-- Embeds the NDEFRecord constructor taking payload, type, id, offset
and chunk flag (ndef-record.cpp lines 88-94, record.hpp lines 27-28): it
stores the payload bytes from `offset` on (via set_payload, which runs
validate on the stored bytes). `payload.begin() + offset` past the end is
undefined behavior in C++; it is rendered by the total `List.drop` and
never exercised by the theorems below. -/
def NDEFRecord.make (payload : List Nat) (t : NDEFRecordType)
    (id : List Nat) (offset : Nat) (chunked : Bool) : NDEFRecord :=
  { record_type := NDEFRecord.validatedType t (payload.drop offset)
    id_field := id
    payload_data := payload.drop offset
    chunked := chunked }

/-- Accessor NDEFRecord::id(). -/
def NDEFRecord.id (r : NDEFRecord) : List Nat := r.id_field

/-- Accessor NDEFRecord::payload(). -/
def NDEFRecord.payload (r : NDEFRecord) : List Nat := r.payload_data

/-- Accessor NDEFRecord::type(). -/
def NDEFRecord.type (r : NDEFRecord) : NDEFRecordType := r.record_type

/-- NDEFRecord::is_short (record.hpp line 70). -/
def NDEFRecord.is_short (r : NDEFRecord) : Bool :=
  r.payload_data.length < 256

/-- NDEFRecord::is_valid (record.hpp line 72). -/
def NDEFRecord.is_valid (r : NDEFRecord) : Bool :=
  r.record_type.type_id != TypeID.Invalid

/-- Embeds NDEFRecord::header (ndef-record.cpp lines 104-121): the record
flag byte from record state, without MB/ME. -/
def NDEFRecord.header (r : NDEFRecord) : Nat :=
  r.record_type.type_id.toNat
    ||| (if r.payload_data.length < 256 then 16 else 0)
    ||| (if 0 < r.id_field.length then 8 else 0)
    ||| (if r.chunked then 32 else 0)

/-- First byte of a type name the ENCODE loop rejects (ndef-record.cpp
line 281: `byte <= 31 || byte >= 127`; the C++ iterates signed chars, for
which byte values 128..255 are negative and hence also at most 31, so on
byte values 0..255 the rejection test is `c ≤ 31 ∨ 127 ≤ c`). -/
def findBadEncodeChar : List Nat → Option Nat
  | [] => none
  | c :: cs => if c ≤ 31 ∨ 127 ≤ c then some c else findBadEncodeChar cs

/-- First byte of a type field the DECODE loop rejects (ndef-record.cpp
line 196: `chr <= 31 || chr == 127` over uint8_t values). -/
def findBadDecodeChar : List Nat → Option Nat
  | [] => none
  | c :: cs => if c ≤ 31 ∨ c = 127 then some c else findBadDecodeChar cs

/-- Embeds util::uint32FromBEBytes (util.hpp): big-endian 32-bit value
from 4 bytes. -/
def uint32FromBEBytes (b0 b1 b2 b3 : Nat) : Nat :=
  b0 <<< 24 ||| b1 <<< 16 ||| b2 <<< 8 ||| b3

/-- Embeds NDEFRecord::as_bytes (ndef-record.cpp lines 239-299). The
internal header is built with mb = me = true ("assume this record is only
record") and OR-combined with the caller's extra flags; an invalid type
name character makes the whole call throw. Every `push_back` of a wider
value narrows to uint8_t, hence the explicit `% 256`. -/
def NDEFRecord.as_bytes (r : NDEFRecord) (flags : Nat) :
    Except NdefError (List Nat) :=
  let header : NDEFRecordHeader :=
    { tnf := r.record_type.type_id
      il := 0 < r.id_field.length
      sr := r.payload_data.length < 256
      cf := r.chunked
      me := true
      mb := true }
  match findBadEncodeChar r.record_type.type_name with
  | some c => .error (.invalidCharEncode c)
  | none =>
    .ok ([header.asByte ||| flags, r.record_type.type_name.length % 256]
      ++ (if r.payload_data.length < 256 then [r.payload_data.length % 256]
          else [(r.payload_data.length >>> 24) % 256,
                (r.payload_data.length >>> 16) % 256,
                (r.payload_data.length >>> 8) % 256,
                r.payload_data.length % 256])
      ++ (if 0 < r.id_field.length then [r.id_field.length % 256] else [])
      ++ r.record_type.type_name ++ r.id_field ++ r.payload_data)

/-- Embeds NDEFRecord::from_bytes (ndef-record.cpp lines 133-236),
returning the parsed record together with the `bytes_used` out-parameter.
Stages mirror the source: minimum-4-octet check, record type (Invalid
sentinel returns early with no bytes used), header and type-length pops,
1- or 4-byte payload length, optional id length, validated type field,
id field, payload. Note that the byte queue is built from the whole
input, not from `offset` (ndef-record.cpp line 153). The success return
NDEFRecord(payload, record_type, id_field, header.cf) at line 235
list-initializes the 5-parameter constructor, whose 4th parameter is
`size_t offset`: the bool `header.cf` converts (non-narrowing) to 0 or 1
and binds to OFFSET, so when the CF bit is set the constructor drops the
first payload byte, and `chunked` keeps its default value false. -/
def NDEFRecord.from_bytes (bytes : List Nat) (offset : Nat) :
    Except NdefError (NDEFRecord × Nat) :=
  if bytes.length < 4 then .error .octets
  else match NDEFRecordType.from_bytes bytes offset with
  | .error e => .error e
  | .ok record_type =>
    if record_type.type_id = TypeID.Invalid then
      .ok (NDEFRecord.make [] record_type [] 0 false, 0)
    else
      let header := NDEFRecordHeader.fromByte (bytes.headD 0)
      let type_length := (bytes.drop 1).headD 0
      let vals1 := bytes.drop 2
      let plStage : Except NdefError (Nat × List Nat × Nat) :=
        if header.sr then .ok (vals1.headD 0, vals1.drop 1, 3)
        else if vals1.length < 4 then
          .error (.tooFew "payload length" 4 vals1.length)
        else .ok (uint32FromBEBytes (vals1.headD 0) ((vals1.drop 1).headD 0)
            ((vals1.drop 2).headD 0) ((vals1.drop 3).headD 0),
          vals1.drop 4, 6)
      match plStage with
      | .error e => .error e
      | .ok (payload_length, vals2, used2) =>
        let idLenStage : Except NdefError (Nat × List Nat × Nat) :=
          if header.il then
            if vals2.length = 0 then .error (.tooFew "ID length" 1 0)
            else .ok (vals2.headD 0, vals2.drop 1, used2 + 1)
          else .ok (0, vals2, used2)
        match idLenStage with
        | .error e => .error e
        | .ok (id_length, vals3, used3) =>
          if vals3.length < type_length then
            .error (.tooFew "type length" type_length vals3.length)
          else
            let type_bytes := vals3.take type_length
            match findBadDecodeChar type_bytes with
            | some c => .error (.invalidCharDecode c)
            | none =>
              let vals4 := vals3.drop type_length
              let used4 := used3 + type_bytes.length
              let idStage : Except NdefError (List Nat × List Nat) :=
                if 0 < id_length then
                  if vals4.length < id_length then
                    .error (.tooFew "ID" id_length vals4.length)
                  else .ok (vals4.take id_length, vals4.drop id_length)
                else .ok ([], vals4)
              match idStage with
              | .error e => .error e
              | .ok (id_field, vals5) =>
                let used5 := used4 + id_field.length
                if vals5.length < payload_length then
                  .error (.tooFew "payload" payload_length vals5.length)
                else
                  let payload := vals5.take payload_length
                  .ok (NDEFRecord.make payload record_type id_field
                      (if header.cf then 1 else 0) false,
                    used5 + payload.length)

/-- ASCII byte values of a Lean string literal, used to transcribe the
C++ string constants. -/
def strBytes (s : String) : List Nat := s.toList.map Char.toNat

/-- Embeds the 36-entry uri_identifiers table (uri-record.cpp lines 5-43). -/
def uri_identifiers : List (List Nat) :=
  [strBytes "", strBytes "http://www.", strBytes "https://www.",
   strBytes "http://", strBytes "https://", strBytes "tel:",
   strBytes "mailto:", strBytes "ftp://anonymous:anonymous@",
   strBytes "ftp://ftp.", strBytes "ftps://", strBytes "sftp://",
   strBytes "smb://", strBytes "nfs://", strBytes "ftp://",
   strBytes "dav://", strBytes "news:", strBytes "telnet://",
   strBytes "imap:", strBytes "rtsp://", strBytes "urn:", strBytes "pop:",
   strBytes "sip:", strBytes "sips:", strBytes "tftp:", strBytes "btspp://",
   strBytes "btl2cap://", strBytes "btgoep://", strBytes "tcpobex://",
   strBytes "irdaobex://", strBytes "file://", strBytes "urn:epc:id:",
   strBytes "urn:epc:tag:", strBytes "urn:epc:pat:", strBytes "urn:epc:raw:",
   strBytes "urn:epc:", strBytes "urn:nfc:"]

/-- Embeds the identifier-matching loop of NDEFRecord::create_uri_record
(uri-record.cpp lines 55-70). `uri.rfind(p, 0) == 0` holds exactly when p
is a prefix of uri, rendered here as a take-and-compare. On a match the
code runs `payload.emplace_back(i)` followed by
`payload.insert(payload.begin(), uri.begin() + p.size(), uri.end())`,
so the suffix bytes land IN FRONT of the identifier code. -/
def uriMatchLoop (uri : List Nat) : Nat → List (List Nat) → List Nat
  | _, [] => []
  | i, p :: rest =>
    if uri.length < p.length then uriMatchLoop uri (i + 1) rest
    else if uri.take p.length = p then uri.drop p.length ++ [i]
    else uriMatchLoop uri (i + 1) rest

/-- Embeds NDEFRecord::create_uri_record (uri-record.cpp lines 46-75):
type is set to the "U" Well Known type and the payload to the result of
the matching loop. (The C++ default constructor leaves `chunked`
uninitialized; it is fixed to false here and unobserved by any claim.) -/
def NDEFRecord.create_uri_record (uri : List Nat) : NDEFRecord :=
  { record_type := NDEFRecordType.make TypeID.WellKnown (strBytes "U")
    id_field := []
    payload_data := uriMatchLoop uri 0 uri_identifiers
    chunked := false }

/-- Embeds the static NDEFRecord::get_uri_protocol (uri-record.cpp lines
78-82): `uri_identifiers[payload.at(0)]`. An empty payload throws
std::out_of_range from `.at`; an identifier byte beyond 35 indexes the C
array out of bounds (undefined behavior in the source, never exercised by
the claims), rendered as the empty string via `getD`. -/
def NDEFRecord.get_uri_protocol (payload : List Nat) :
    Except NdefError (List Nat) :=
  match payload with
  | [] => .error .atOutOfRange
  | c :: _ => .ok (uri_identifiers.getD c [])

/-- Embeds the static NDEFRecord::get_uri (uri-record.cpp lines 85-89):
the bytes after the identifier byte. -/
def NDEFRecord.get_uri (payload : List Nat) : List Nat := payload.drop 1

/-- Embeds the static NDEFRecord::get_text_locale (text-record.cpp lines
73-78): locale length is `min(payload.at(0) & 0x1f, 5)`; an empty payload
throws std::out_of_range from `.at`. The string built from
`payload.begin() + 1` is rendered with `take` (the C++ is undefined when
the payload holds fewer bytes than the locale length; claims about this
accessor carry the corresponding length hypothesis). The member accessor
(lines 96-101) is the same computation on `payload_data`. -/
def NDEFRecord.get_text_locale (payload : List Nat) :
    Except NdefError (List Nat) :=
  match payload with
  | [] => .error .atOutOfRange
  | s :: rest => .ok (rest.take (min (s &&& 31) 5))

/-- Embeds NDEFMessage::is_valid (message.cpp lines 54-69): non-empty and
every member record valid. -/
def NDEFMessage.is_valid (records : List NDEFRecord) : Bool :=
  if records.isEmpty then false
  else records.all fun r => r.is_valid

/-- Embeds NDEFMessage::set_record (message.cpp lines 44-51). -/
def NDEFMessage.set_record (records : List NDEFRecord)
    (record : NDEFRecord) (index : Nat) :
    Except NdefError (List NDEFRecord) :=
  if records.length ≤ index then
    .error (.indexOutOfRange ("Unable to set record. Index "
      ++ toString index ++ " outside of range of message"))
  else .ok (records.set index record)

/-- Extra-flags byte NDEFMessage::as_bytes hands to record i of
num_records (message.cpp lines 88-92): the record's own header() with MB
(0x80) OR-ed in for the first record and ME (0x40) for the last. -/
def NDEFMessage.recordFlags (num_records : Nat) (r : NDEFRecord)
    (i : Nat) : Nat :=
  r.header ||| (if i = 0 then 128 else 0)
    ||| (if i = num_records - 1 then 64 else 0)

/-- Serialization loop of NDEFMessage::as_bytes (message.cpp lines 81-97):
record i of n is encoded with extra flags `record.header() | (i==0 ? MB :
0) | (i==n-1 ? ME : 0)` and the outputs are concatenated; a record encode
error aborts the whole call. -/
def NDEFMessage.asBytesLoop (num_records : Nat) :
    Nat → List NDEFRecord → Except NdefError (List Nat)
  | _, [] => .ok []
  | i, r :: rs =>
    match r.as_bytes (NDEFMessage.recordFlags num_records r i) with
    | .error e => .error e
    | .ok record_bytes =>
      match NDEFMessage.asBytesLoop num_records (i + 1) rs with
      | .error e => .error e
      | .ok rest => .ok (record_bytes ++ rest)

/-- Embeds NDEFMessage::as_bytes (message.cpp lines 71-100): an invalid
message yields the empty byte sequence, otherwise the records are encoded
positionally and concatenated. -/
def NDEFMessage.as_bytes (records : List NDEFRecord) :
    Except NdefError (List Nat) :=
  if !NDEFMessage.is_valid records then .ok []
  else NDEFMessage.asBytesLoop records.length 0 records

/-- Decode loop of NDEFMessage::from_bytes (message.cpp lines 111-128),
fuel-indexed for termination: while the buffer is non-empty, parse a
record at the front; an Invalid-typed record stops the loop keeping the
records decoded so far; otherwise append and drop the consumed bytes.
Every successful non-Invalid parse consumes at least 3 bytes, so fuel
`data.length + 1` is never exhausted. -/
def NDEFMessage.fromBytesLoop :
    Nat → List Nat → List NDEFRecord → Except NdefError (List NDEFRecord)
  | 0, _, acc => .ok acc
  | fuel + 1, buffer, acc =>
    if buffer.isEmpty then .ok acc
    else match NDEFRecord.from_bytes buffer 0 with
    | .error e => .error e
    | .ok (record, bytes_used) =>
      if record.record_type.type_id = TypeID.Invalid then .ok acc
      else NDEFMessage.fromBytesLoop fuel (buffer.drop bytes_used)
        (acc ++ [record])

/-- Embeds NDEFMessage::from_bytes (message.cpp lines 102-131). -/
def NDEFMessage.from_bytes (data : List Nat) (offset : Nat) :
    Except NdefError (List NDEFRecord) :=
  NDEFMessage.fromBytesLoop (data.length + 1) (data.drop offset) []

end NdefLite

namespace NdefLite

/-! Shared helper lemmas about the embedded operations. -/

theorem list_take_append (a b : List Nat) : (a ++ b).take a.length = a := by
  induction a with
  | nil => simp
  | cons x xs ih => simp [ih]

theorem list_drop_append (a b : List Nat) : (a ++ b).drop a.length = b := by
  induction a with
  | nil => simp
  | cons x xs ih => simp [ih]

theorem make_type_id (id : TypeID) (name : List Nat) :
    (NDEFRecordType.make id name).type_id = id := rfl

theorem ofTnf_ne_invalid : ∀ n : Nat, n < 7 → TypeID.ofTnf n ≠ TypeID.Invalid := by
  decide

theorem findBadDecodeChar_of_mem (l : List Nat)
    (hex : ∃ c ∈ l, c ≤ 31 ∨ c = 127) :
    ∃ c, findBadDecodeChar l = some c ∧ c ∈ l ∧ (c ≤ 31 ∨ c = 127) := by
  induction l with
  | nil => simp at hex
  | cons x xs ih =>
    by_cases hx : x ≤ 31 ∨ x = 127
    · exact ⟨x, by simp [findBadDecodeChar, hx], by simp, hx⟩
    · obtain ⟨c, hc, hbad⟩ := hex
      rcases List.mem_cons.mp hc with rfl | hmem
      · exact absurd hbad hx
      · obtain ⟨c2, hfind, hmem2, hbad2⟩ := ih ⟨c, hmem, hbad⟩
        exact ⟨c2, by simp [findBadDecodeChar, hx, hfind], by simp [hmem2], hbad2⟩

theorem findBadDecodeChar_eq_none (l : List Nat)
    (h : ∀ c ∈ l, 32 ≤ c ∧ c ≤ 126) : findBadDecodeChar l = none := by
  induction l with
  | nil => rfl
  | cons x xs ih =>
    have hx := h x (by simp)
    have hnot : ¬(x ≤ 31 ∨ x = 127) := by omega
    simp only [findBadDecodeChar, if_neg hnot]
    exact ih fun c hc => h c (by simp [hc])

theorem findBadEncodeChar_eq_none (l : List Nat)
    (h : ∀ c ∈ l, 32 ≤ c ∧ c ≤ 126) : findBadEncodeChar l = none := by
  induction l with
  | nil => rfl
  | cons x xs ih =>
    have hx := h x (by simp)
    have hnot : ¬(x ≤ 31 ∨ 127 ≤ x) := by omega
    simp only [findBadEncodeChar, if_neg hnot]
    exact ih fun c hc => h c (by simp [hc])

theorem drop_two_cons (n x y : Nat) (L : List Nat) :
    (x :: y :: L).drop (2 + n) = L.drop n := by
  have h : 2 + n = n + 2 := by omega
  rw [h]
  rfl

/-- Value of NDEFRecordType::from_bytes on the success path, with the
three branch guards discharged. -/
theorem recordType_from_bytes_success (data : List Nat) (offset : Nat)
    (h2 : ¬ data.length - offset < 2)
    (h3 : ¬ (data.drop offset).length < ((data.drop offset).drop 1).headD 0)
    (h4 : ¬(((data.drop offset).drop 1).headD 0 ≠ 0 ∧ (data.drop offset).length <
        (2 + (if ((data.drop offset).headD 0 &&& 16 != 0) = true then 1 else 4)
          + (if ((data.drop offset).headD 0 &&& 8 != 0) = true then 1 else 0))
        + ((data.drop offset).drop 1).headD 0)) :
    NDEFRecordType.from_bytes data offset
      = .ok (NDEFRecordType.make
          (if 7 ≤ ((data.drop offset).headD 0 &&& 7) then TypeID.Unknown
            else TypeID.ofTnf ((data.drop offset).headD 0 &&& 7))
          (((data.drop offset).drop
              (2 + (if ((data.drop offset).headD 0 &&& 16 != 0) = true then 1 else 4)
                + (if ((data.drop offset).headD 0 &&& 8 != 0) = true then 1 else 0))).take
            (((data.drop offset).drop 1).headD 0))) := by
  unfold NDEFRecordType.from_bytes
  rw [if_neg h2, if_neg h3, if_neg h4]

theorem be32_round_trip (n : Nat) (h : n < 2 ^ 32) :
    uint32FromBEBytes ((n >>> 24) % 256) ((n >>> 16) % 256)
      ((n >>> 8) % 256) (n % 256) = n := by
  unfold uint32FromBEBytes
  have h256 : (256 : Nat) = 2 ^ 8 := by norm_num
  apply Nat.eq_of_testBit_eq
  intro i
  rw [h256]
  simp only [Nat.testBit_or, Nat.testBit_shiftLeft, Nat.testBit_mod_two_pow,
    Nat.testBit_shiftRight]
  rcases Nat.lt_or_ge i 8 with hi | hi
  · have h1 : ¬ 24 ≤ i := by omega
    have h2 : ¬ 16 ≤ i := by omega
    have h3 : ¬ 8 ≤ i := by omega
    simp [h1, h2, h3, hi]
  rcases Nat.lt_or_ge i 16 with hi2 | hi2
  · have h1 : ¬ 24 ≤ i := by omega
    have h2 : ¬ 16 ≤ i := by omega
    have h4 : i - 8 < 8 := by omega
    have h5 : 8 + (i - 8) = i := by omega
    have h7 : ¬ i < 8 := by omega
    simp [h1, h2, hi, h4, h5, h7]
  rcases Nat.lt_or_ge i 24 with hi3 | hi3
  · have h1 : ¬ 24 ≤ i := by omega
    have h4 : i - 16 < 8 := by omega
    have h5 : 16 + (i - 16) = i := by omega
    have h6 : ¬ i - 8 < 8 := by omega
    have h7 : ¬ i < 8 := by omega
    simp [h1, hi2, h4, h5, h6, h7]
  rcases Nat.lt_or_ge i 32 with hi4 | hi4
  · have h4 : i - 24 < 8 := by omega
    have h5 : 24 + (i - 24) = i := by omega
    have h6 : ¬ i - 16 < 8 := by omega
    have h6b : ¬ i - 8 < 8 := by omega
    have h7 : ¬ i < 8 := by omega
    simp [hi3, h4, h5, h6, h6b, h7]
  · have h4 : ¬ i - 24 < 8 := by omega
    have h6 : ¬ i - 16 < 8 := by omega
    have h6b : ¬ i - 8 < 8 := by omega
    have h7 : ¬ i < 8 := by omega
    have hz : n.testBit i = false :=
      Nat.testBit_eq_false_of_lt
        (lt_of_lt_of_le h (Nat.pow_le_pow_right (by norm_num) hi4))
    simp [h4, h6, h6b, h7, hz]

end NdefLite

set_option maxRecDepth 4000 in
/-- C4: for every byte b in 0..255, NDEFRecordHeader::asByte applied to
NDEFRecordHeader::from_byte(b) returns exactly b — the header bit packing
(MB=0x80, ME=0x40, CF=0x20, SR=0x10, IL=0x08, TNF low 3 bits) is a
bijection over the full byte range. -/
theorem header_byte_bijection :
    ∀ b : Nat, b < 256 → (NdefLite.NDEFRecordHeader.fromByte b).asByte = b := by
  decide

/-- Witness: the header bijection at the concrete byte 0xA5. -/
theorem header_byte_bijection_witness :
    165 < 256 ∧ (NdefLite.NDEFRecordHeader.fromByte 165).asByte = 165 :=
  ⟨by decide, header_byte_bijection 165 (by decide)⟩

/-- C5: NDEFRecordHeader::from_byte on a byte whose low 3 bits are 7
yields the raw reserved code 7 (the Invalid sentinel enumerator)
unchanged in its tnf field, whereas NDEFRecordType::from_bytes, whenever
it reaches its success return (at least 2 bytes, enough bytes for the
type name), normalizes TNF bits 7 to Unknown and never returns Invalid
as a parsed id. -/
theorem tnf_asymmetry :
    (∀ b : Nat, b &&& 7 = 7 →
      (NdefLite.NDEFRecordHeader.fromByte b).tnf = NdefLite.TypeID.Invalid)
    ∧ (∀ (data : List Nat) (offset : Nat) (t : NdefLite.NDEFRecordType),
        NdefLite.NDEFRecordType.from_bytes data offset = .ok t →
        2 ≤ data.length - offset →
        ¬ (data.drop offset).length < ((data.drop offset).drop 1).headD 0 →
        ((data.drop offset).headD 0) &&& 7 = 7 →
        t.type_id = NdefLite.TypeID.Unknown)
    ∧ (∀ (data : List Nat) (offset : Nat) (t : NdefLite.NDEFRecordType),
        NdefLite.NDEFRecordType.from_bytes data offset = .ok t →
        2 ≤ data.length - offset →
        ¬ (data.drop offset).length < ((data.drop offset).drop 1).headD 0 →
        t.type_id ≠ NdefLite.TypeID.Invalid) := by
  refine ⟨?_, ?_, ?_⟩
  · intro b hb
    simp [NdefLite.NDEFRecordHeader.fromByte, hb, NdefLite.TypeID.ofTnf]
  · intro data offset t hok h2 h3 h7
    unfold NdefLite.NDEFRecordType.from_bytes at hok
    rw [if_neg (by omega), if_neg h3, h7] at hok
    have h77 : (7 : Nat) ≤ 7 := le_refl 7
    rw [if_pos h77] at hok
    split_ifs at hok
    all_goals first
      | exact Except.noConfusion hok
      | (rw [← Except.ok.inj hok]; rfl)
  · intro data offset t hok h2 h3
    unfold NdefLite.NDEFRecordType.from_bytes at hok
    rw [if_neg (by omega), if_neg h3] at hok
    split_ifs at hok
    all_goals first
      | exact Except.noConfusion hok
      | (rw [← Except.ok.inj hok]
         first
           | (show NdefLite.TypeID.Unknown ≠ NdefLite.TypeID.Invalid
              decide)
           | (apply NdefLite.ofTnf_ne_invalid
              omega))

/-- Witness for C5: raw byte 0x07 has TNF bits 7; RecordHeader keeps the
Invalid sentinel while RecordType parsing of [0x07, 0x00] yields Unknown. -/
theorem tnf_asymmetry_witness :
    (NdefLite.NDEFRecordHeader.fromByte 7).tnf = NdefLite.TypeID.Invalid
    ∧ (NdefLite.NDEFRecordType.make NdefLite.TypeID.Unknown []).type_id
        = NdefLite.TypeID.Unknown :=
  ⟨tnf_asymmetry.1 7 (by decide),
   tnf_asymmetry.2.1 [7, 0] 0 (NdefLite.NDEFRecordType.make .Unknown [])
     (by rfl) (by decide) (by decide) (by decide)⟩

/-- C9: the text-locale accessor computes its locale length as
min(payload[0] & 0x1F, 5), so it never returns more than 5 bytes, and a
status byte encoding a locale length of 6..31 yields exactly the first 5
bytes after the status byte. (The length hypothesis keeps the C++ string
slice within defined behavior.) -/
theorem text_locale_truncated :
    ∀ (s : Nat) (rest : List Nat),
      min (s &&& 31) 5 ≤ rest.length →
      ∃ loc, NdefLite.NDEFRecord.get_text_locale (s :: rest) = .ok loc
        ∧ loc.length ≤ 5
        ∧ (6 ≤ s &&& 31 → loc = rest.take 5) := by
  intro s rest hlen
  refine ⟨rest.take (min (s &&& 31) 5), rfl, ?_, ?_⟩
  · rw [List.length_take]
    omega
  · intro h6
    have hmin : min (s &&& 31) 5 = 5 := by omega
    rw [hmin]

/-- Witness for C9: status byte 0x0A encodes locale length 10; the
accessor returns only the 5 bytes after the status byte. -/
theorem text_locale_truncated_witness :
    ∃ loc,
      NdefLite.NDEFRecord.get_text_locale [10, 97, 98, 99, 100, 101, 102, 103]
        = .ok loc ∧ loc.length ≤ 5
      ∧ (6 ≤ 10 &&& 31 → loc = [97, 98, 99, 100, 101, 102, 103].take 5) :=
  text_locale_truncated 10 [97, 98, 99, 100, 101, 102, 103] (by decide)

/-- C8: for every record list and index i < record count, set_record
replaces exactly the record at position i — the length is unchanged,
position i holds the new record, and every other position is unchanged. -/
theorem set_record_frame :
    ∀ (records : List NdefLite.NDEFRecord) (record : NdefLite.NDEFRecord)
      (index : Nat),
      index < records.length →
      ∃ updated,
        NdefLite.NDEFMessage.set_record records record index = .ok updated
        ∧ updated.length = records.length
        ∧ updated[index]? = some record
        ∧ ∀ j, j ≠ index → updated[j]? = records[j]? := by
  intro l r i hi
  refine ⟨l.set i r, ?_, ?_, ?_, ?_⟩
  · simp only [NdefLite.NDEFMessage.set_record]
    rw [if_neg (by omega)]
  · exact List.length_set l i r
  · exact List.getElem?_set_eq_of_lt r hi
  · intro j hj
    exact List.getElem?_set_ne (by omega)

/-- Witness for C8: replacing index 0 of a two-record list. -/
theorem set_record_frame_witness :
    ∃ updated,
      NdefLite.NDEFMessage.set_record
          [NdefLite.NDEFRecord.make [] (NdefLite.NDEFRecordType.make .Empty []) [] 0 false,
           NdefLite.NDEFRecord.make [7] (NdefLite.NDEFRecordType.make .Unknown []) [] 0 false]
          (NdefLite.NDEFRecord.make [1] (NdefLite.NDEFRecordType.make .WellKnown [84]) [] 0 true) 0
        = .ok updated
      ∧ updated.length = 2
      ∧ updated[0]? = some (NdefLite.NDEFRecord.make [1] (NdefLite.NDEFRecordType.make .WellKnown [84]) [] 0 true)
      ∧ ∀ j, j ≠ 0 → updated[j]? =
          [NdefLite.NDEFRecord.make [] (NdefLite.NDEFRecordType.make .Empty []) [] 0 false,
           NdefLite.NDEFRecord.make [7] (NdefLite.NDEFRecordType.make .Unknown []) [] 0 false][j]? :=
  set_record_frame _ _ 0 (by decide)

/-- Counterexample to C3: create_uri_record("http://www.example.com")
puts the URI suffix bytes BEFORE the abbreviation code (the insert lands
at payload.begin()), and the empty table entry at index 0 matches every
URI before "http://www." at index 1 is ever compared, so the payload is
the full URI followed by code 0 — not [1, 'e','x','a','m','p','l','e',
'.','c','o','m']. The two retrieval accessors do behave as claimed on
the payload the claim describes. -/
theorem create_uri_record_eval :
    (NdefLite.NDEFRecord.create_uri_record
        (NdefLite.strBytes "http://www.example.com")).payload_data
      = NdefLite.strBytes "http://www.example.com" ++ [0]
    ∧ (NdefLite.NDEFRecord.create_uri_record
        (NdefLite.strBytes "http://www.example.com")).payload_data
      ≠ 1 :: NdefLite.strBytes "example.com"
    ∧ NdefLite.NDEFRecord.get_uri_protocol (1 :: NdefLite.strBytes "example.com")
      = .ok (NdefLite.strBytes "http://www.")
    ∧ NdefLite.NDEFRecord.get_uri (1 :: NdefLite.strBytes "example.com")
      = NdefLite.strBytes "example.com" := by
  refine ⟨by rfl, by decide, by rfl, by rfl⟩

/-- Counterexample to C2: for a valid two-record message, every emitted
header byte is 0xD5 = 213, which has both MB (0x80) and ME (0x40) set:
Record::as_bytes hardcodes mb = me = true and Message::as_bytes can only
OR extra flags in, so the first record carries ME and the last carries MB,
against the claim that MB is set iff i = 0 and ME iff i = n-1. -/
theorem message_as_bytes_mb_me_eval :
    NdefLite.NDEFMessage.as_bytes
        [NdefLite.NDEFRecord.make [] (NdefLite.NDEFRecordType.make .Unknown []) [] 0 false,
         NdefLite.NDEFRecord.make [] (NdefLite.NDEFRecordType.make .Unknown []) [] 0 false]
      = .ok [213, 0, 0, 213, 0, 0]
    ∧ 213 &&& 64 = 64 ∧ 213 &&& 128 = 128 :=
  ⟨by rfl, by decide, by decide⟩

/-- C10: whenever the undecoded remainder inside Message::from_bytes is
non-empty but shorter than 4 bytes, the loop propagates the
minimum-4-octet exception from Record::from_bytes instead of
soft-stopping with the records decoded so far; and any parse that
returns a record — in particular the Invalid soft stop — requires at
least 4 bytes of remaining input. -/
theorem message_from_bytes_short_tail_throws :
    (∀ (fuel : Nat) (buffer : List Nat) (acc : List NdefLite.NDEFRecord),
        buffer ≠ [] → buffer.length < 4 →
        NdefLite.NDEFMessage.fromBytesLoop (fuel + 1) buffer acc
          = .error .octets)
    ∧ (∀ (data : List Nat) (offset : Nat),
        data.drop offset ≠ [] → (data.drop offset).length < 4 →
        NdefLite.NDEFMessage.from_bytes data offset = .error .octets)
    ∧ (∀ (buffer : List Nat) (r : NdefLite.NDEFRecord) (u : Nat),
        NdefLite.NDEFRecord.from_bytes buffer 0 = .ok (r, u) →
        4 ≤ buffer.length) := by
  have step : ∀ (fuel : Nat) (buffer : List Nat)
      (acc : List NdefLite.NDEFRecord),
      buffer ≠ [] → buffer.length < 4 →
      NdefLite.NDEFMessage.fromBytesLoop (fuel + 1) buffer acc
        = .error .octets := by
    intro fuel buffer acc hne hlen
    have hemp : buffer.isEmpty = false := by
      cases buffer with
      | nil => exact absurd rfl hne
      | cons a l => rfl
    have hfb : NdefLite.NDEFRecord.from_bytes buffer 0 = .error .octets := by
      unfold NdefLite.NDEFRecord.from_bytes
      rw [if_pos hlen]
    simp [NdefLite.NDEFMessage.fromBytesLoop, hemp, hfb]
  refine ⟨step, ?_, ?_⟩
  · intro data offset h1 h2
    unfold NdefLite.NDEFMessage.from_bytes
    exact step data.length (data.drop offset) [] h1 h2
  · intro buffer r u hok
    by_contra hlt
    have hsm : buffer.length < 4 := by omega
    have : NdefLite.NDEFRecord.from_bytes buffer 0 = .error .octets := by
      unfold NdefLite.NDEFRecord.from_bytes
      rw [if_pos hsm]
    rw [this] at hok
    exact Except.noConfusion hok

/-- Witness for C10: a 2-byte tail throws the octet exception, and the
4-byte input [0xD1, 0, 0, 0] parses, as every parse does, only because
at least 4 bytes remain. -/
theorem message_from_bytes_short_tail_throws_witness :
    NdefLite.NDEFMessage.from_bytes [208, 0] 0 = .error .octets
    ∧ 4 ≤ [209, 0, 0, 0].length :=
  ⟨message_from_bytes_short_tail_throws.2.1 [208, 0] 0 (by decide) (by decide),
   message_from_bytes_short_tail_throws.2.2 [209, 0, 0, 0]
     (NdefLite.NDEFRecord.make []
       (NdefLite.NDEFRecordType.make .WellKnown []) [] 0 false) 3 (by rfl)⟩

namespace NdefLite

/-- The as_bytes loop concatenates the per-record encodings whenever each
record at running index i + j encodes successfully. -/
theorem asBytesLoop_flatten (n : Nat) :
    ∀ (rs : List NDEFRecord) (encs : List (List Nat)) (i : Nat),
      List.Forall₂ (fun re e =>
        (Prod.snd re).as_bytes
            (NDEFMessage.recordFlags n (Prod.snd re) (Prod.fst re)) = .ok e)
        (List.enumFrom i rs) encs →
      NDEFMessage.asBytesLoop n i rs = .ok encs.flatten := by
  intro rs
  induction rs with
  | nil =>
    intro encs i hall
    cases hall
    rfl
  | cons r rest ih =>
    intro encs i hall
    cases hall with
    | cons hhd htl =>
      simp only [NDEFMessage.asBytesLoop, hhd, ih _ _ htl, List.flatten_cons]

end NdefLite

/-- C7: Message::as_bytes returns the empty byte sequence, not an error,
whenever the message is invalid (empty, or containing a record whose type
id is the Invalid sentinel); and on a valid message whose records all
encode successfully it returns exactly the concatenation of the
per-record encodings taken with their positional MB/ME extra flags. -/
theorem message_as_bytes_validity :
    ∀ records : List NdefLite.NDEFRecord,
      (NdefLite.NDEFMessage.is_valid records = false →
        NdefLite.NDEFMessage.as_bytes records = .ok [])
      ∧ (∀ encs : List (List Nat),
          NdefLite.NDEFMessage.is_valid records = true →
          List.Forall₂ (fun re e =>
            (Prod.snd re).as_bytes
                (NdefLite.NDEFMessage.recordFlags records.length
                  (Prod.snd re) (Prod.fst re)) = .ok e)
            (List.enumFrom 0 records) encs →
          NdefLite.NDEFMessage.as_bytes records = .ok encs.flatten) := by
  intro records
  constructor
  · intro hinv
    unfold NdefLite.NDEFMessage.as_bytes
    rw [hinv]
    rfl
  · intro encs hval hall
    unfold NdefLite.NDEFMessage.as_bytes
    rw [hval]
    exact NdefLite.asBytesLoop_flatten records.length records encs 0 hall

/-- Witness for C7: the empty message is invalid and yields the empty
sequence; a valid one-record message yields that record's encoding. -/
theorem message_as_bytes_validity_witness :
    NdefLite.NDEFMessage.as_bytes [] = .ok []
    ∧ NdefLite.NDEFMessage.as_bytes
        [NdefLite.NDEFRecord.make [] (NdefLite.NDEFRecordType.make .Unknown []) [] 0 false]
      = .ok [213, 0, 0] :=
  ⟨(message_as_bytes_validity []).1 (by rfl),
   (message_as_bytes_validity
      [NdefLite.NDEFRecord.make [] (NdefLite.NDEFRecordType.make .Unknown []) [] 0 false]).2
     [[213, 0, 0]] (by rfl)
     (List.Forall₂.cons (by rfl) List.Forall₂.nil)⟩

namespace NdefLite

/-- C6: if the type field parsed by Record::from_bytes contains any byte
in [0,31] or equal to 127, decoding fails with the invalid-character
NDEFException naming the offending code, and no record is returned. The
input is quantified over its wire shape: header byte, type length, a
payload-length field of 1 or 4 bytes matching the SR bit, an id-length
field matching the IL bit, the type field, and arbitrary trailing
bytes. -/
theorem record_from_bytes_bad_type_char :
    ∀ (hb tl : Nat) (plf idf tb rest : List Nat),
      plf.length = (if (hb &&& 16 != 0) = true then 1 else 4) →
      idf.length = (if (hb &&& 8 != 0) = true then 1 else 0) →
      tb.length = tl →
      (∃ c ∈ tb, c ≤ 31 ∨ c = 127) →
      ∃ c, NDEFRecord.from_bytes (hb :: tl :: (plf ++ idf ++ tb ++ rest)) 0
          = .error (.invalidCharDecode c) ∧ c ∈ tb ∧ (c ≤ 31 ∨ c = 127) := by
  intro hb tl plf idf tb rest hplf hidf htb hex
  obtain ⟨c0, hc0mem, hc0bad⟩ := hex
  have htbpos : 0 < tb.length := List.length_pos.mpr (by rintro rfl; simp at hc0mem)
  obtain ⟨c, hfind, hcmem, hcbad⟩ := findBadDecodeChar_of_mem tb ⟨c0, hc0mem, hc0bad⟩
  refine ⟨c, ?_, hcmem, hcbad⟩
  have hplfpos : 0 < plf.length := by
    rw [hplf]; split <;> omega
  have hlen4 : ¬ (hb :: tl :: (plf ++ idf ++ tb ++ rest)).length < 4 := by
    simp
    omega
  have hRT := recordType_from_bytes_success (hb :: tl :: (plf ++ idf ++ tb ++ rest)) 0
    (by simp)
    (by show ¬ (hb :: tl :: (plf ++ idf ++ tb ++ rest)).length < tl
        simp
        omega)
    (by show ¬(tl ≠ 0 ∧ (hb :: tl :: (plf ++ idf ++ tb ++ rest)).length <
          (2 + (if ((hb :: tl :: (plf ++ idf ++ tb ++ rest)).headD 0 &&& 16 != 0) = true then 1 else 4)
            + (if ((hb :: tl :: (plf ++ idf ++ tb ++ rest)).headD 0 &&& 8 != 0) = true then 1 else 0)) + tl)
        simp only [List.headD_cons]
        rw [← hplf, ← hidf]
        simp
        omega)
  simp only [List.drop_zero, List.drop_succ_cons, List.headD_cons, Nat.add_assoc,
    drop_two_cons] at hRT
  rw [← hplf, ← hidf] at hRT
  have hdropT : (plf ++ idf ++ tb ++ rest).drop (plf.length + idf.length)
      = tb ++ rest := by
    rw [List.append_assoc (plf ++ idf) tb rest]
    have h := list_drop_append (plf ++ idf) (tb ++ rest)
    rwa [List.length_append] at h
  have htake : (tb ++ rest).take tl = tb := by
    rw [← htb]
    exact list_take_append tb rest
  rw [hdropT, htake] at hRT
  have hInv : (NDEFRecordType.make
      (if 7 ≤ hb &&& 7 then TypeID.Unknown else TypeID.ofTnf (hb &&& 7)) tb).type_id
      ≠ TypeID.Invalid := by
    rw [make_type_id]
    split_ifs with h7
    · decide
    · exact ofTnf_ne_invalid _ (by omega)
  unfold NDEFRecord.from_bytes
  rw [if_neg hlen4]
  split
  · rename_i e heq
    rw [hRT] at heq
    exact Except.noConfusion heq
  · rename_i record_type heq
    rw [hRT] at heq
    have hrt2 := Except.ok.inj heq
    subst hrt2
    rw [if_neg hInv]
    by_cases hsr : (hb &&& 16 != 0) = true
    · have hplf1 : plf.length = 1 := by rw [hplf, if_pos hsr]
      obtain ⟨p0, rfl⟩ := List.length_eq_one.mp hplf1
      by_cases hil : (hb &&& 8 != 0) = true
      · have hidf1 : idf.length = 1 := by rw [hidf, if_pos hil]
        obtain ⟨i0, rfl⟩ := List.length_eq_one.mp hidf1
        have hv3 : ¬ ((tb ++ rest).length < tl) := by simp; omega
        simp [NDEFRecordHeader.fromByte, hsr, hil, htake, hfind, hv3]
        omega
      · have hidf0 : idf = [] := List.length_eq_zero.mp (by rw [hidf, if_neg hil])
        subst hidf0
        have hv3 : ¬ ((tb ++ rest).length < tl) := by simp; omega
        simp [NDEFRecordHeader.fromByte, hsr, hil, htake, hfind, hv3]
        omega
    · have hplf4 : plf.length = 4 := by rw [hplf, if_neg hsr]
      by_cases hil : (hb &&& 8 != 0) = true
      · have hidf1 : idf.length = 1 := by rw [hidf, if_pos hil]
        obtain ⟨i0, rfl⟩ := List.length_eq_one.mp hidf1
        have hd4 : List.drop 4 (plf ++ i0 :: (tb ++ rest)) = i0 :: (tb ++ rest) := by
          rw [← hplf4]
          exact list_drop_append _ _
        have hc4 : ¬ (plf.length + (tb.length + rest.length + 1) < 4) := by omega
        have hv3 : ¬ ((tb ++ rest).length < tl) := by simp; omega
        simp [NDEFRecordHeader.fromByte, hsr, hil, htake, hfind, hv3, hd4, hc4]
        omega
      · have hidf0 : idf = [] := List.length_eq_zero.mp (by rw [hidf, if_neg hil])
        subst hidf0
        have hd4 : List.drop 4 (plf ++ (tb ++ rest)) = tb ++ rest := by
          rw [← hplf4]
          exact list_drop_append _ _
        have hc4 : ¬ (plf.length + (tb.length + rest.length) < 4) := by omega
        have hv3 : ¬ ((tb ++ rest).length < tl) := by simp; omega
        simp [NDEFRecordHeader.fromByte, hsr, hil, htake, hfind, hv3, hd4, hc4]
        omega

/-- Witness for C6: the 4-byte record [0x11, 1, 0, 0x1F] whose 1-byte
type field is 0x1F decodes to InvalidCharacter(31). -/
theorem record_from_bytes_bad_type_char_witness :
    ∃ c, NDEFRecord.from_bytes [17, 1, 0, 31] 0
        = .error (.invalidCharDecode c) ∧ c ∈ [31] ∧ (c ≤ 31 ∨ c = 127) :=
  record_from_bytes_bad_type_char 17 1 [0] [] [31] []
    (by decide) (by decide) (by decide) ⟨31, by decide, Or.inl (by decide)⟩

end NdefLite

namespace NdefLite

set_option maxRecDepth 4000 in
/-- Bit-level facts about the header byte built by Record::as_bytes: the
flag masks recover each field, from_byte inverts it, and a non-Invalid
TNF stays below 7. -/
theorem asByte_bits (t : TypeID) (ilb srb cfb : Bool) (h : t ≠ TypeID.Invalid) :
    (NDEFRecordHeader.asByte ⟨t, ilb, srb, cfb, true, true⟩ &&& 7 = t.toNat)
    ∧ ((NDEFRecordHeader.asByte ⟨t, ilb, srb, cfb, true, true⟩ &&& 8 != 0) = ilb)
    ∧ ((NDEFRecordHeader.asByte ⟨t, ilb, srb, cfb, true, true⟩ &&& 16 != 0) = srb)
    ∧ ((NDEFRecordHeader.asByte ⟨t, ilb, srb, cfb, true, true⟩ &&& 32 != 0) = cfb)
    ∧ NDEFRecordHeader.fromByte (NDEFRecordHeader.asByte ⟨t, ilb, srb, cfb, true, true⟩)
        = ⟨t, ilb, srb, cfb, true, true⟩
    ∧ ¬ 7 ≤ t.toNat
    ∧ TypeID.ofTnf t.toNat = t := by
  cases t <;> cases ilb <;> cases srb <;> cases cfb <;>
    first
      | exact absurd rfl h
      | decide

/-- Round trip for a record whose fields already satisfy the class
invariants maintained by the C++ constructors (Empty implies empty name
and payload) and the wire-representability bounds. -/
theorem round_trip_core (T : NDEFRecordType) (id payload : List Nat)
    (hInv : T.type_id ≠ TypeID.Invalid)
    (hEmp : T.type_id = TypeID.Empty → T.type_name = [] ∧ payload = [])
    (hascii : ∀ c ∈ T.type_name, 32 ≤ c ∧ c ≤ 126)
    (hnl : T.type_name.length < 256) (hidl : id.length < 256)
    (hpl : payload.length < 2 ^ 32)
    (hne : ¬(T.type_name = [] ∧ id = [] ∧ payload = [])) :
    ∃ enc used,
      (NDEFRecord.mk T id payload false).as_bytes 0 = .ok enc
      ∧ NDEFRecord.from_bytes enc 0 = .ok (NDEFRecord.mk T id payload false, used) := by
  obtain ⟨hand7, hand8, hand16, hand32, hfrom, hnot7, hofTnf⟩ :=
    asByte_bits T.type_id (decide (0 < id.length)) (decide (payload.length < 256)) false hInv
  have hmakeT : NDEFRecordType.make T.type_id T.type_name = T := by
    unfold NDEFRecordType.make
    by_cases hE : T.type_id = TypeID.Empty
    · obtain ⟨hn, hp⟩ := hEmp hE
      rw [if_pos hE, ← hn]
    · rw [if_neg hE]
  have hvalT : NDEFRecord.validatedType T payload = T := by
    unfold NDEFRecord.validatedType
    rw [if_neg]
    rintro ⟨hp, hE⟩
    obtain ⟨hn, hp0⟩ := hEmp hE
    rw [hp0] at hp
    simp at hp
  by_cases hsr : payload.length < 256
  · by_cases hid : 0 < id.length
    · refine ⟨NDEFRecordHeader.asByte ⟨T.type_id, decide (0 < id.length), decide (payload.length < 256), false, true, true⟩
          :: T.type_name.length
          :: payload.length :: id.length :: (T.type_name ++ (id ++ payload)),
        3 + 1 + T.type_name.length + id.length + payload.length, ?_, ?_⟩
      · unfold NDEFRecord.as_bytes
        rw [findBadEncodeChar_eq_none _ hascii]
        simp [hsr, hid, Nat.mod_eq_of_lt hsr, Nat.mod_eq_of_lt hidl, Nat.mod_eq_of_lt hnl]
      · set hb := NDEFRecordHeader.asByte ⟨T.type_id, decide (0 < id.length), decide (payload.length < 256), false, true, true⟩ with hhbdef
        have hlen4 : ¬ (hb :: T.type_name.length :: payload.length :: id.length :: (T.type_name ++ (id ++ payload))).length < 4 := by simp
        have htake1 : (T.type_name ++ (id ++ payload)).take T.type_name.length
            = T.type_name := list_take_append _ _
        have hc2 : ¬ (hb :: T.type_name.length :: payload.length :: id.length :: (T.type_name ++ (id ++ payload))).length - 0 < 2 := by simp
        have hc3 : ¬ (hb :: T.type_name.length :: payload.length :: id.length :: (T.type_name ++ (id ++ payload))).length < T.type_name.length := by simp; omega
        have hc4 : ¬ (T.type_name.length ≠ 0 ∧ (hb :: T.type_name.length :: payload.length :: id.length :: (T.type_name ++ (id ++ payload))).length <
            (2 + (if (hb &&& 16 != 0) = true then 1 else 4)
              + (if (hb &&& 8 != 0) = true then 1 else 0)) + T.type_name.length) := by
          rw [hand16, hand8]
          simp [hsr, hid]
          omega
        have hRT := recordType_from_bytes_success (hb :: T.type_name.length :: payload.length :: id.length :: (T.type_name ++ (id ++ payload))) 0 hc2 hc3 hc4
        simp only [List.drop_zero, List.drop_succ_cons, List.headD_cons, List.cons_append,
          List.nil_append, hand16, hand8, hand7] at hRT
        rw [decide_eq_true hsr, decide_eq_true hid] at hRT
        simp only [if_true] at hRT
        have h211 : (2 + 1 + 1 : Nat) = 4 := rfl
        rw [h211] at hRT
        simp only [List.drop_succ_cons, List.drop_zero] at hRT
        rw [if_neg hnot7, hofTnf, htake1, hmakeT] at hRT
        unfold NDEFRecord.from_bytes
        rw [if_neg hlen4]
        split
        · rename_i e heq
          rw [hRT] at heq
          exact Except.noConfusion heq
        · rename_i record_type heq
          rw [hRT] at heq
          have hrteq := Except.ok.inj heq
          subst hrteq
          rw [if_neg hInv]
          have hbad : findBadDecodeChar T.type_name = none :=
            findBadDecodeChar_eq_none _ hascii
          simp [hfrom, hsr, hid, htake1, hbad, hvalT, NDEFRecord.make,
            list_take_append, list_drop_append, List.take_length]
    · -- short record, no id
      have hidnil : id = [] := List.length_eq_zero.mp (by omega)
      subst hidnil
      have hne2 : 0 < T.type_name.length + payload.length := by
        by_contra hcon
        push_neg at hcon
        exact hne ⟨List.length_eq_zero.mp (by omega), rfl,
          List.length_eq_zero.mp (by omega)⟩
      refine ⟨NDEFRecordHeader.asByte ⟨T.type_id, decide (0 < List.length ([] : List Nat)), decide (payload.length < 256), false, true, true⟩
          :: T.type_name.length
          :: payload.length :: (T.type_name ++ payload),
        3 + T.type_name.length + payload.length, ?_, ?_⟩
      · unfold NDEFRecord.as_bytes
        rw [findBadEncodeChar_eq_none _ hascii]
        simp [hsr, Nat.mod_eq_of_lt hsr, Nat.mod_eq_of_lt hnl]
      · set hb := NDEFRecordHeader.asByte ⟨T.type_id, decide (0 < List.length ([] : List Nat)), decide (payload.length < 256), false, true, true⟩ with hhbdef
        have hlen4 : ¬ (hb :: T.type_name.length :: payload.length :: (T.type_name ++ payload)).length < 4 := by
          simp
          omega
        have htake1 : (T.type_name ++ payload).take T.type_name.length
            = T.type_name := list_take_append _ _
        have hc2 : ¬ (hb :: T.type_name.length :: payload.length :: (T.type_name ++ payload)).length - 0 < 2 := by simp
        have hc3 : ¬ (hb :: T.type_name.length :: payload.length :: (T.type_name ++ payload)).length < T.type_name.length := by simp; omega
        have hc4 : ¬ (T.type_name.length ≠ 0 ∧ (hb :: T.type_name.length :: payload.length :: (T.type_name ++ payload)).length <
            (2 + (if (hb &&& 16 != 0) = true then 1 else 4)
              + (if (hb &&& 8 != 0) = true then 1 else 0)) + T.type_name.length) := by
          rw [hand16, hand8]
          simp [hsr]
          omega
        have hRT := recordType_from_bytes_success (hb :: T.type_name.length :: payload.length :: (T.type_name ++ payload)) 0 hc2 hc3 hc4
        simp [hand16, hand8, hand7, hsr, hnot7, hofTnf, htake1] at hRT
        rw [hmakeT] at hRT
        unfold NDEFRecord.from_bytes
        rw [if_neg hlen4]
        split
        · rename_i e heq
          rw [hRT] at heq
          exact Except.noConfusion heq
        · rename_i record_type heq
          rw [hRT] at heq
          have hrteq := Except.ok.inj heq
          subst hrteq
          rw [if_neg hInv]
          have hbad : findBadDecodeChar T.type_name = none :=
            findBadDecodeChar_eq_none _ hascii
          simp [hfrom, hsr, htake1, hbad, hvalT, NDEFRecord.make,
            list_take_append, list_drop_append, List.take_length]
  · -- long record: 4-byte big-endian payload length
    have hbe : uint32FromBEBytes ((payload.length >>> 24) % 256)
        ((payload.length >>> 16) % 256) ((payload.length >>> 8) % 256)
        (payload.length % 256) = payload.length := be32_round_trip _ hpl
    by_cases hid : 0 < id.length
    · refine ⟨NDEFRecordHeader.asByte ⟨T.type_id, decide (0 < id.length), decide (payload.length < 256), false, true, true⟩
          :: T.type_name.length
          :: (payload.length >>> 24) % 256 :: (payload.length >>> 16) % 256
          :: (payload.length >>> 8) % 256 :: payload.length % 256
          :: id.length :: (T.type_name ++ (id ++ payload)),
        6 + 1 + T.type_name.length + id.length + payload.length, ?_, ?_⟩
      · unfold NDEFRecord.as_bytes
        rw [findBadEncodeChar_eq_none _ hascii]
        simp [hsr, hid, Nat.mod_eq_of_lt hidl, Nat.mod_eq_of_lt hnl]
      · set hb := NDEFRecordHeader.asByte ⟨T.type_id, decide (0 < id.length), decide (payload.length < 256), false, true, true⟩ with hhbdef
        have hlen4 : ¬ (hb :: T.type_name.length
          :: (payload.length >>> 24) % 256 :: (payload.length >>> 16) % 256
          :: (payload.length >>> 8) % 256 :: payload.length % 256
          :: id.length :: (T.type_name ++ (id ++ payload))).length < 4 := by simp
        have htake1 : (T.type_name ++ (id ++ payload)).take T.type_name.length
            = T.type_name := list_take_append _ _
        have hc2 : ¬ (hb :: T.type_name.length
          :: (payload.length >>> 24) % 256 :: (payload.length >>> 16) % 256
          :: (payload.length >>> 8) % 256 :: payload.length % 256
          :: id.length :: (T.type_name ++ (id ++ payload))).length - 0 < 2 := by simp
        have hc3 : ¬ (hb :: T.type_name.length
          :: (payload.length >>> 24) % 256 :: (payload.length >>> 16) % 256
          :: (payload.length >>> 8) % 256 :: payload.length % 256
          :: id.length :: (T.type_name ++ (id ++ payload))).length < T.type_name.length := by simp; omega
        have hc4 : ¬ (T.type_name.length ≠ 0 ∧ (hb :: T.type_name.length
          :: (payload.length >>> 24) % 256 :: (payload.length >>> 16) % 256
          :: (payload.length >>> 8) % 256 :: payload.length % 256
          :: id.length :: (T.type_name ++ (id ++ payload))).length <
            (2 + (if (hb &&& 16 != 0) = true then 1 else 4)
              + (if (hb &&& 8 != 0) = true then 1 else 0)) + T.type_name.length) := by
          rw [hand16, hand8]
          simp [hsr, hid]
          omega
        have hRT := recordType_from_bytes_success (hb :: T.type_name.length
          :: (payload.length >>> 24) % 256 :: (payload.length >>> 16) % 256
          :: (payload.length >>> 8) % 256 :: payload.length % 256
          :: id.length :: (T.type_name ++ (id ++ payload))) 0 hc2 hc3 hc4
        simp [hand16, hand8, hand7, hsr, hid, hnot7, hofTnf, htake1] at hRT
        rw [hmakeT] at hRT
        unfold NDEFRecord.from_bytes
        rw [if_neg hlen4]
        split
        · rename_i e heq
          rw [hRT] at heq
          exact Except.noConfusion heq
        · rename_i record_type heq
          rw [hRT] at heq
          have hrteq := Except.ok.inj heq
          subst hrteq
          rw [if_neg hInv]
          have hbad : findBadDecodeChar T.type_name = none :=
            findBadDecodeChar_eq_none _ hascii
          simp [hfrom, hsr, hid, htake1, hbad, hvalT, NDEFRecord.make,
            list_take_append, list_drop_append, List.take_length, hbe]
          rw [if_neg (by omega :
            ¬ (T.type_name.length + (id.length + payload.length) + 1 + 1 + 1 + 1 + 1 < 4))]
          simp [hfrom, hsr, hid, htake1, hbad, hvalT, NDEFRecord.make,
            list_take_append, list_drop_append, List.take_length, hbe]
    · -- long record, no id
      have hidnil : id = [] := List.length_eq_zero.mp (by omega)
      subst hidnil
      refine ⟨NDEFRecordHeader.asByte ⟨T.type_id, decide (0 < List.length ([] : List Nat)), decide (payload.length < 256), false, true, true⟩
          :: T.type_name.length
          :: (payload.length >>> 24) % 256 :: (payload.length >>> 16) % 256
          :: (payload.length >>> 8) % 256 :: payload.length % 256
          :: (T.type_name ++ payload),
        6 + T.type_name.length + payload.length, ?_, ?_⟩
      · unfold NDEFRecord.as_bytes
        rw [findBadEncodeChar_eq_none _ hascii]
        simp [hsr, Nat.mod_eq_of_lt hnl]
      · set hb := NDEFRecordHeader.asByte ⟨T.type_id, decide (0 < List.length ([] : List Nat)), decide (payload.length < 256), false, true, true⟩ with hhbdef
        have hlen4 : ¬ (hb :: T.type_name.length
          :: (payload.length >>> 24) % 256 :: (payload.length >>> 16) % 256
          :: (payload.length >>> 8) % 256 :: payload.length % 256
          :: (T.type_name ++ payload)).length < 4 := by simp
        have htake1 : (T.type_name ++ payload).take T.type_name.length
            = T.type_name := list_take_append _ _
        have hc2 : ¬ (hb :: T.type_name.length
          :: (payload.length >>> 24) % 256 :: (payload.length >>> 16) % 256
          :: (payload.length >>> 8) % 256 :: payload.length % 256
          :: (T.type_name ++ payload)).length - 0 < 2 := by simp
        have hc3 : ¬ (hb :: T.type_name.length
          :: (payload.length >>> 24) % 256 :: (payload.length >>> 16) % 256
          :: (payload.length >>> 8) % 256 :: payload.length % 256
          :: (T.type_name ++ payload)).length < T.type_name.length := by simp; omega
        have hc4 : ¬ (T.type_name.length ≠ 0 ∧ (hb :: T.type_name.length
          :: (payload.length >>> 24) % 256 :: (payload.length >>> 16) % 256
          :: (payload.length >>> 8) % 256 :: payload.length % 256
          :: (T.type_name ++ payload)).length <
            (2 + (if (hb &&& 16 != 0) = true then 1 else 4)
              + (if (hb &&& 8 != 0) = true then 1 else 0)) + T.type_name.length) := by
          rw [hand16, hand8]
          simp [hsr]
          omega
        have hRT := recordType_from_bytes_success (hb :: T.type_name.length
          :: (payload.length >>> 24) % 256 :: (payload.length >>> 16) % 256
          :: (payload.length >>> 8) % 256 :: payload.length % 256
          :: (T.type_name ++ payload)) 0 hc2 hc3 hc4
        simp [hand16, hand8, hand7, hsr, hnot7, hofTnf, htake1] at hRT
        rw [hmakeT] at hRT
        unfold NDEFRecord.from_bytes
        rw [if_neg hlen4]
        split
        · rename_i e heq
          rw [hRT] at heq
          exact Except.noConfusion heq
        · rename_i record_type heq
          rw [hRT] at heq
          have hrteq := Except.ok.inj heq
          subst hrteq
          rw [if_neg hInv]
          have hbad : findBadDecodeChar T.type_name = none :=
            findBadDecodeChar_eq_none _ hascii
          simp [hfrom, hsr, htake1, hbad, hvalT, NDEFRecord.make,
            list_take_append, list_drop_append, List.take_length, hbe]
          rw [if_neg (by omega :
            ¬ (T.type_name.length + payload.length + 1 + 1 + 1 + 1 < 4))]
          simp [hfrom, hsr, htake1, hbad, hvalT, NDEFRecord.make,
            list_take_append, list_drop_append, List.take_length, hbe]


/-- C1 (amended): for every non-chunked record built by the NDEFRecord
constructor (offset 0) from a non-Invalid type id, an ASCII [32,126]
type name of at most 255 bytes, an id of at most 255 bytes and a payload
shorter than 2^32 bytes, whose encoding is at least 4 bytes long (not
all of type name, id and payload empty), Record::from_bytes applied to
Record::as_bytes() returns exactly that record — covering both the
1-byte and the 4-byte big-endian payload-length paths. Chunked records
are excluded: the decoder's return statement binds header.cf to the
constructor's size_t offset parameter, so a record whose CF wire bit is
set decodes with its first payload byte dropped and chunked = false. -/
theorem record_round_trip :
    ∀ (tid : TypeID) (name id payload : List Nat),
      tid ≠ TypeID.Invalid →
      (∀ c ∈ name, 32 ≤ c ∧ c ≤ 126) →
      name.length < 256 → id.length < 256 → payload.length < 2 ^ 32 →
      ¬((tid = TypeID.Empty ∨ name = []) ∧ id = [] ∧ payload = []) →
      ∃ enc used,
        (NDEFRecord.make payload (NDEFRecordType.make tid name) id 0 false).as_bytes 0
          = .ok enc
        ∧ NDEFRecord.from_bytes enc 0
            = .ok (NDEFRecord.make payload (NDEFRecordType.make tid name) id 0 false,
                used) := by
  intro tid name id payload htid hascii hnl hidl hpl hne
  simp only [NDEFRecord.make, List.drop_zero]
  by_cases hprom : 0 < payload.length ∧ tid = TypeID.Empty
  · have hTval : NDEFRecord.validatedType (NDEFRecordType.make tid name) payload
        = NDEFRecordType.make TypeID.Unknown [] := by
      unfold NDEFRecord.validatedType
      rw [if_pos]
      exact hprom
    refine round_trip_core _ id payload ?_ ?_ ?_ ?_ hidl hpl ?_
    · rw [hTval]
      decide
    · rw [hTval]
      intro h
      exact absurd h (by decide)
    · rw [hTval]
      intro c hc
      exact absurd hc (by simp [NDEFRecordType.make])
    · rw [hTval]
      decide
    · rw [hTval]
      rintro ⟨h1, h2, h3⟩
      rw [h3] at hprom
      exact absurd hprom.1 (by simp)
  · have hTval : NDEFRecord.validatedType (NDEFRecordType.make tid name) payload
        = NDEFRecordType.make tid name := by
      unfold NDEFRecord.validatedType
      rw [if_neg]
      exact hprom
    refine round_trip_core _ id payload ?_ ?_ ?_ ?_ hidl hpl ?_
    · rw [hTval]
      exact htid
    · rw [hTval]
      intro hE
      have hE2 : tid = TypeID.Empty := hE
      constructor
      · show (if tid = TypeID.Empty then ([] : List Nat) else name) = []
        rw [if_pos hE2]
      · have hnp : ¬ 0 < payload.length := fun hp => hprom ⟨hp, hE2⟩
        exact List.length_eq_zero.mp (by omega)
    · rw [hTval]
      intro c hc
      have hc2 : c ∈ (if tid = TypeID.Empty then ([] : List Nat) else name) := hc
      by_cases hE : tid = TypeID.Empty
      · rw [if_pos hE] at hc2
        exact absurd hc2 (by simp)
      · rw [if_neg hE] at hc2
        exact hascii c hc2
    · rw [hTval]
      show (if tid = TypeID.Empty then ([] : List Nat) else name).length < 256
      by_cases hE : tid = TypeID.Empty
      · rw [if_pos hE]
        decide
      · rw [if_neg hE]
        exact hnl
    · rw [hTval]
      rintro ⟨h1, h2, h3⟩
      have h1b : (if tid = TypeID.Empty then ([] : List Nat) else name) = [] := h1
      by_cases hE : tid = TypeID.Empty
      · exact hne ⟨Or.inl hE, h2, h3⟩
      · rw [if_neg hE] at h1b
        exact hne ⟨Or.inr h1b, h2, h3⟩

/-- Witness for C1: the non-chunked WellKnown "T" record with payload
[1,2,3] and no id round-trips. -/
theorem record_round_trip_witness :
    ∃ enc used,
      (NDEFRecord.make [1, 2, 3] (NDEFRecordType.make .WellKnown [84]) [] 0 false).as_bytes 0
        = .ok enc
      ∧ NDEFRecord.from_bytes enc 0
          = .ok (NDEFRecord.make [1, 2, 3] (NDEFRecordType.make .WellKnown [84]) [] 0 false,
              used) :=
  record_round_trip .WellKnown [84] [] [1, 2, 3]
    (by decide) (by decide) (by decide) (by decide) (by decide) (by decide)

set_option maxRecDepth 40000 in
/-- Counterexample to C1 as stated: four constructor-built records with
non-Invalid types and ASCII names defeat the bare round-trip claim. The
all-empty record encodes to only 3 bytes, which from_bytes rejects with
the minimum-4-octet exception; a 256-byte type name and a 256-byte id
are truncated modulo 256 by their 1-byte wire length fields, so decoding
the encoding yields a different record; and a chunked record decodes
with its first payload byte dropped and chunked = false, because the
decoder's braced constructor call binds header.cf to the size_t offset
parameter. -/
theorem record_round_trip_counterexample :
    ((NDEFRecord.make [] (NDEFRecordType.make .Empty []) [] 0 false).as_bytes 0
        = .ok [208, 0, 0]
      ∧ NDEFRecord.from_bytes [208, 0, 0] 0 = .error .octets)
    ∧ ((NDEFRecord.make [] (NDEFRecordType.make .WellKnown (List.replicate 256 65)) [] 0 false).as_bytes 0
        = .ok (209 :: 0 :: 0 :: List.replicate 256 65)
      ∧ NDEFRecord.from_bytes (209 :: 0 :: 0 :: List.replicate 256 65) 0
          = .ok (NDEFRecord.make [] (NDEFRecordType.make .WellKnown []) [] 0 false, 3)
      ∧ NDEFRecord.make [] (NDEFRecordType.make .WellKnown []) [] 0 false
          ≠ NDEFRecord.make [] (NDEFRecordType.make .WellKnown (List.replicate 256 65)) [] 0 false)
    ∧ ((NDEFRecord.make [] (NDEFRecordType.make .WellKnown [85]) (List.replicate 256 97) 0 false).as_bytes 0
        = .ok (217 :: 1 :: 0 :: 0 :: 85 :: List.replicate 256 97)
      ∧ NDEFRecord.from_bytes (217 :: 1 :: 0 :: 0 :: 85 :: List.replicate 256 97) 0
          = .ok (NDEFRecord.make [] (NDEFRecordType.make .WellKnown [85]) [] 0 false, 5)
      ∧ NDEFRecord.make [] (NDEFRecordType.make .WellKnown [85]) [] 0 false
          ≠ NDEFRecord.make [] (NDEFRecordType.make .WellKnown [85]) (List.replicate 256 97) 0 false)
    ∧ ((NDEFRecord.make [1, 2, 3] (NDEFRecordType.make .WellKnown [84]) [] 0 true).as_bytes 0
        = .ok [241, 1, 3, 84, 1, 2, 3]
      ∧ NDEFRecord.from_bytes [241, 1, 3, 84, 1, 2, 3] 0
          = .ok (NDEFRecord.make [2, 3] (NDEFRecordType.make .WellKnown [84]) [] 0 false, 7)
      ∧ NDEFRecord.make [2, 3] (NDEFRecordType.make .WellKnown [84]) [] 0 false
          ≠ NDEFRecord.make [1, 2, 3] (NDEFRecordType.make .WellKnown [84]) [] 0 true) := by
  refine ⟨⟨by rfl, by rfl⟩, ⟨by rfl, by rfl, by decide⟩, ⟨by rfl, by rfl, by decide⟩,
    by rfl, by rfl, by decide⟩

end NdefLite
